import Mathlib

/-!
Verification of the rodbus Modbus library core against its specification.

The definitions below are a shallow embedding of the Rust sources under
src/rodbus/src: machine integers (u8, u16) become Nat with the relevant
bounds carried as hypotheses where they matter, fallible functions return
Except, and the zero-copy iterators become explicit state records with a
step function. Code of the repository that is not present under src
(the read cursor, the bit-count helper, the numeric constants, the error
enums and the AddressRange request parser) is modelled from the spec; each
such definition says so in its doc comment.
-/

namespace Rodbus

set_option autoImplicit false

/-- Modelled from the spec: error taxonomy section 7, InvalidRange
(CountOfZero, AddressOverflow(start,count)); the error module is not under
src. -/
inductive InvalidRange where
  | CountOfZero : InvalidRange
  | AddressOverflow (start count : Nat) : InvalidRange
deriving DecidableEq

/-- Modelled from the spec: error taxonomy section 7, InvalidRequest
(CountTooBigForType(actual,max), CountTooBigForU16(usize)).  The BadRange
variant carries an InvalidRange: WriteMultiple.to_address_range applies the
question-mark conversion from InvalidRange into InvalidRequest, so such a
variant must exist in the missing error module. -/
inductive InvalidRequest where
  | BadRange (e : InvalidRange) : InvalidRequest
  | CountTooBigForType (actual max : Nat) : InvalidRequest
  | CountTooBigForU16 (n : Nat) : InvalidRequest
deriving DecidableEq

/-- Modelled from the spec: error taxonomy section 7, ADUParseError. -/
inductive ADUParseError where
  | InsufficientBytes : ADUParseError
  | InsufficientBytesForByteCount (declared actual : Nat) : ADUParseError
  | RequestByteCountMismatch (expected actual : Nat) : ADUParseError
  | UnknownCoilState (value : Nat) : ADUParseError
  | UnknownResponseFunction (byte : Nat) : ADUParseError
  | ReplyEchoMismatch : ADUParseError
  | UnknownProtocolId (id : Nat) : ADUParseError
  | BadTransactionId : ADUParseError
  | FrameOverflow : ADUParseError
deriving DecidableEq

/-- Modelled from the spec: error taxonomy section 7, InternalError, with
the two variants used by the iterator constructors in src/rodbus/src/types.rs. -/
inductive InternalError where
  | BadBitIteratorArgs : InternalError
  | BadRegisterIteratorArgs : InternalError
deriving DecidableEq

/-- Modelled from the spec: the top-level Error into which parse functions
convert ADUParseError (via .into()) and InvalidRequest (via the question
mark in the write-multiple echo parsers). -/
inductive Error where
  | BadRequest (e : InvalidRequest) : Error
  | BadResponse (e : ADUParseError) : Error
deriving DecidableEq

/-- Lifts a cursor / codec level ADUParseError into the top-level Error,
as the .into() conversions do in client_response_parsers.rs. -/
def liftParse {α : Type} : Except ADUParseError α → Except Error α
  | .ok a => .ok a
  | .error e => .error (.BadResponse e)

/-- Decidable equality on Except outcomes, needed to evaluate the embedded
fallible functions at concrete inputs. -/
instance instDecEqExcept {ε α : Type} [DecidableEq ε] [DecidableEq α] :
    DecidableEq (Except ε α) := fun x y =>
  match x, y with
  | .ok a, .ok b =>
      if h : a = b then .isTrue (by rw [h]) else .isFalse (fun hh => h (Except.ok.inj hh))
  | .ok _, .error _ => .isFalse (fun hh => Except.noConfusion hh)
  | .error _, .ok _ => .isFalse (fun hh => Except.noConfusion hh)
  | .error e, .error f =>
      if h : e = f then .isTrue (by rw [h]) else .isFalse (fun hh => h (Except.error.inj hh))

/-- Start and count tuple used when making various requests
(src/rodbus/src/types.rs, struct AddressRange).  Fields are u16 in the
source; bounds are carried as hypotheses where they matter. -/
structure AddressRange where
  start : Nat
  count : Nat
deriving DecidableEq

/-- Value and its address (src/rodbus/src/types.rs, struct Indexed). -/
structure Indexed (α : Type) where
  index : Nat
  value : α
deriving DecidableEq

/-- Creates a new indexed value (Indexed::new). -/
def Indexed.new {α : Type} (index : Nat) (value : α) : Indexed α :=
  ⟨index, value⟩

/-- Collection of values and starting address
(src/rodbus/src/types.rs, struct WriteMultiple). -/
structure WriteMultiple (α : Type) where
  start : Nat
  values : List α

/-- Modelled from the spec: coil ON constant 0xFF00 (section 4.2, single
coil value mapping); the constants module is not under src. -/
def coil.ON : Nat := 0xFF00

/-- Modelled from the spec: coil OFF constant 0x0000. -/
def coil.OFF : Nat := 0x0000

/-- Modelled from the spec: maximum count for bit reads, 2000 (section 4.2
table); the constants::limits module is not under src. -/
def limits.MAX_READ_COILS_COUNT : Nat := 2000

/-- Modelled from the spec: maximum count for register reads, 125. -/
def limits.MAX_READ_REGISTERS_COUNT : Nat := 125

/-- Modelled from the spec: maximum count for write-multiple coils, 1968. -/
def limits.MAX_WRITE_COILS_COUNT : Nat := 1968

/-- Modelled from the spec: maximum count for write-multiple registers, 123. -/
def limits.MAX_WRITE_REGISTERS_COUNT : Nat := 123

/-- Modelled from the spec: ceil(count/8), the number of bytes needed to
pack count bits (crate::util::bits::num_bytes_for_bits, not under src). -/
def num_bytes_for_bits (count : Nat) : Nat := (count + 7) / 8

/-- Decodes a coil value from its u16 wire representation
(src/rodbus/src/types.rs, coil_from_u16). -/
def coil_from_u16 (value : Nat) : Except ADUParseError Bool :=
  if value = coil.ON then .ok true
  else if value = coil.OFF then .ok false
  else .error (.UnknownCoilState value)

/-- Encodes a coil value to its u16 wire representation
(src/rodbus/src/types.rs, coil_to_u16). -/
def coil_to_u16 (value : Bool) : Nat :=
  if value then coil.ON else coil.OFF

/-- Creates a new address range, validating count and overflow
(src/rodbus/src/types.rs, AddressRange::try_from).  The u16 subtraction
std::u16::MAX - (count - 1) never underflows for count in [1, 0xFFFF], so
Nat subtraction is a faithful model. -/
def AddressRange.try_from (start count : Nat) : Except InvalidRange AddressRange :=
  if count = 0 then
    .error .CountOfZero
  else
    let max_start := 0xFFFF - (count - 1)
    if start > max_start then
      .error (.AddressOverflow start count)
    else
      .ok ⟨start, count⟩

/-- Converts a write-multiple request to a range, checking for overflow
(src/rodbus/src/types.rs, WriteMultiple::to_address_range).  The
u16::try_from(len) conversion succeeds exactly when len fits in 16 bits. -/
def WriteMultiple.to_address_range {α : Type} (w : WriteMultiple α) :
    Except InvalidRequest AddressRange :=
  if w.values.length ≤ 0xFFFF then
    match AddressRange.try_from w.start w.values.length with
    | .ok r => .ok r
    | .error e => .error (.BadRange e)
  else
    .error (.CountTooBigForU16 w.values.length)

/-- Modelled from the spec: read cursor over a bounded byte window
(section 4.1; crate::util::cursor::ReadCursor is not under src).  Bytes
are Nat values below 256. -/
structure ReadCursor where
  bytes : List Nat
deriving DecidableEq

/-- Modelled from the spec: number of unread bytes remaining (cursor len). -/
def ReadCursor.len (c : ReadCursor) : Nat := c.bytes.length

/-- Modelled from the spec: whether the window is exhausted (is_empty). -/
def ReadCursor.is_empty (c : ReadCursor) : Bool := c.bytes.isEmpty

/-- Modelled from the spec: read one byte, failing with InsufficientBytes
when the window is exhausted. -/
def ReadCursor.read_u8 (c : ReadCursor) : Except ADUParseError (Nat × ReadCursor) :=
  match c.bytes with
  | [] => .error .InsufficientBytes
  | b :: rest => .ok (b, ⟨rest⟩)

/-- Modelled from the spec: read a big-endian u16 (high byte first),
failing with InsufficientBytes when fewer than two bytes remain. -/
def ReadCursor.read_u16_be (c : ReadCursor) : Except ADUParseError (Nat × ReadCursor) :=
  match c.bytes with
  | high :: low :: rest => .ok (high * 256 + low, ⟨rest⟩)
  | _ => .error .InsufficientBytes

/-- Modelled from the spec: read n bytes, failing with InsufficientBytes
when fewer than n remain. -/
def ReadCursor.read_bytes (c : ReadCursor) (n : Nat) :
    Except ADUParseError (List Nat × ReadCursor) :=
  if n ≤ c.bytes.length then .ok (c.bytes.take n, ⟨c.bytes.drop n⟩)
  else .error .InsufficientBytes

/-- Per-function count limit check
(src/rodbus/src/service/validation.rs, check_validity). -/
def check_validity (range : AddressRange) (max_count : Nat) : Except InvalidRequest Unit :=
  if range.count > max_count then
    .error (.CountTooBigForType range.count max_count)
  else
    .ok ()

/-- Pre-flight check for bit reads (validation.rs). -/
def check_validity_for_read_bits (range : AddressRange) : Except InvalidRequest Unit :=
  check_validity range limits.MAX_READ_COILS_COUNT

/-- Pre-flight check for register reads (validation.rs). -/
def check_validity_for_read_registers (range : AddressRange) : Except InvalidRequest Unit :=
  check_validity range limits.MAX_READ_REGISTERS_COUNT

/-- Pre-flight check for write-multiple coils (validation.rs). -/
def check_validity_for_write_multiple_coils (range : AddressRange) : Except InvalidRequest Unit :=
  check_validity range limits.MAX_WRITE_COILS_COUNT

/-- Pre-flight check for write-multiple registers (validation.rs). -/
def check_validity_for_write_multiple_registers (range : AddressRange) : Except InvalidRequest Unit :=
  check_validity range limits.MAX_WRITE_REGISTERS_COUNT

/-- Zero-copy iterator over a collection of bits
(src/rodbus/src/types.rs, struct BitIterator).  The borrowed byte slice
becomes an owned list; pos is the u16 cursor of the source. -/
structure BitIterator where
  bytes : List Nat
  range : AddressRange
  pos : Nat
deriving DecidableEq

/-- Zero-copy iterator over a collection of registers
(src/rodbus/src/types.rs, struct RegisterIterator). -/
structure RegisterIterator where
  bytes : List Nat
  range : AddressRange
  pos : Nat
deriving DecidableEq

/-- Validating constructor of BitIterator
(src/rodbus/src/types.rs, BitIterator::create). -/
def BitIterator.create (bytes : List Nat) (range : AddressRange) :
    Except InternalError BitIterator :=
  if bytes.length < num_bytes_for_bits range.count then
    .error .BadBitIteratorArgs
  else
    .ok ⟨bytes, range, 0⟩

/-- Validating constructor of RegisterIterator
(src/rodbus/src/types.rs, RegisterIterator::create). -/
def RegisterIterator.create (bytes : List Nat) (range : AddressRange) :
    Except InternalError RegisterIterator :=
  if bytes.length ≠ 2 * range.count then
    .error .BadRegisterIteratorArgs
  else
    .ok ⟨bytes, range, 0⟩

/-- One step of the bit iterator (Iterator::next for BitIterator in
src/rodbus/src/types.rs).  The source test (value and (1 shl bit)) != 0 is
Nat.testBit; bytes.get(byte) becomes List.get?. -/
def BitIterator.next (it : BitIterator) : Option (Bool × BitIterator) :=
  if it.pos = it.range.count then
    none
  else
    match it.bytes.get? (it.pos / 8) with
    | some value => some (Nat.testBit value (it.pos % 8), ⟨it.bytes, it.range, it.pos + 1⟩)
    | none => none

/-- Exact size hint of the bit iterator (size_hint for BitIterator).
The u16 subtraction range.count - pos matches Nat subtraction since the
source maintains pos ≤ count. -/
def BitIterator.size_hint (it : BitIterator) : Nat × Option Nat :=
  (it.range.count - it.pos, some (it.range.count - it.pos))

/-- One step of the register iterator (Iterator::next for
RegisterIterator).  bytes.get(pos..pos+2) succeeds exactly when both bytes
exist; the value is big-endian (high shl 8) | low. -/
def RegisterIterator.next (it : RegisterIterator) : Option (Nat × RegisterIterator) :=
  if it.pos = it.range.count then
    none
  else
    match it.bytes.get? (2 * it.pos), it.bytes.get? (2 * it.pos + 1) with
    | some high, some low =>
        some (high * 256 + low, ⟨it.bytes, it.range, it.pos + 1⟩)
    | _, _ => none

/-- Exact size hint of the register iterator (size_hint for
RegisterIterator). -/
def RegisterIterator.size_hint (it : RegisterIterator) : Nat × Option Nat :=
  (it.range.count - it.pos, some (it.range.count - it.pos))

/-- Runs the bit iterator to exhaustion, collecting every yielded item
(the Vec collect of the source tests).  Terminates because a successful
next step requires pos / 8 to index into bytes, so pos < 8 * bytes.length
strictly increases towards that bound. -/
def BitIterator.toList (it : BitIterator) : List Bool :=
  match h : it.next with
  | none => []
  | some (v, it2) => v :: it2.toList
termination_by 8 * it.bytes.length - it.pos
decreasing_by
  simp only [BitIterator.next] at h
  split at h
  · exact absurd h (by simp)
  · rename_i hne
    cases hget : it.bytes.get? (it.pos / 8) with
    | none => rw [hget] at h; exact absurd h (by simp)
    | some value =>
        rw [hget] at h
        have hlt : it.pos / 8 < it.bytes.length := List.get?_eq_some.mp hget |>.1
        have hp : it.pos < 8 * it.bytes.length := by omega
        simp only [Option.some.injEq, Prod.mk.injEq] at h
        have : it2 = ⟨it.bytes, it.range, it.pos + 1⟩ := h.2.symm
        subst this
        simp only
        omega

/-- Runs the register iterator to exhaustion, collecting every yielded
item.  Terminates because a successful step requires byte 2 * pos to
exist, so pos < bytes.length. -/
def RegisterIterator.toList (it : RegisterIterator) : List Nat :=
  match h : it.next with
  | none => []
  | some (v, it2) => v :: it2.toList
termination_by it.bytes.length - it.pos
decreasing_by
  simp only [RegisterIterator.next] at h
  split at h
  · exact absurd h (by simp)
  · rename_i hne
    cases hhigh : it.bytes.get? (2 * it.pos) with
    | none => rw [hhigh] at h; exact absurd h (by simp)
    | some high =>
        cases hlow : it.bytes.get? (2 * it.pos + 1) with
        | none => rw [hhigh, hlow] at h; exact absurd h (by simp)
        | some low =>
            rw [hhigh, hlow] at h
            have hlt : 2 * it.pos < it.bytes.length := List.get?_eq_some.mp hhigh |>.1
            simp only [Option.some.injEq, Prod.mk.injEq] at h
            have : it2 = ⟨it.bytes, it.range, it.pos + 1⟩ := h.2.symm
            subst this
            simp only
            omega

/-- Applies BitIterator.next k times, keeping only the iterator state;
used to speak about every intermediate point of an iteration. -/
def BitIterator.stepN : Nat → BitIterator → Option BitIterator
  | 0, it => some it
  | k + 1, it =>
      match it.next with
      | none => none
      | some (_, it2) => BitIterator.stepN k it2

/-- Applies RegisterIterator.next k times, keeping only the iterator
state. -/
def RegisterIterator.stepN : Nat → RegisterIterator → Option RegisterIterator
  | 0, it => some it
  | k + 1, it =>
      match it.next with
      | none => none
      | some (_, it2) => RegisterIterator.stepN k it2

/-- Echo parser for a single register write
(client_response_parsers.rs, ParseResponse of Indexed of u16 for Indexed of
u16): read address and value big-endian, then require equality with the
request. -/
def Indexed_u16.parse_response (cursor : ReadCursor) (request : Indexed Nat) :
    Except Error (Indexed Nat × ReadCursor) := do
  let (index, cursor) ← liftParse cursor.read_u16_be
  let (value, cursor) ← liftParse cursor.read_u16_be
  let response : Indexed Nat := Indexed.new index value
  if request ≠ response then
    .error (.BadResponse .ReplyEchoMismatch)
  else
    .ok (response, cursor)

/-- Echo parser for a single coil write
(client_response_parsers.rs, ParseResponse of Indexed of bool for Indexed
of bool): read address big-endian, decode the coil value with
coil_from_u16 (whose error propagates through the question mark), then
require equality with the request. -/
def Indexed_bool.parse_response (cursor : ReadCursor) (request : Indexed Bool) :
    Except Error (Indexed Bool × ReadCursor) := do
  let (index, cursor) ← liftParse cursor.read_u16_be
  let (raw, cursor) ← liftParse cursor.read_u16_be
  let value ← liftParse (coil_from_u16 raw)
  let response : Indexed Bool := Indexed.new index value
  if response ≠ request then
    .error (.BadResponse .ReplyEchoMismatch)
  else
    .ok (response, cursor)

/-- All bits of a byte list, low-order bit first within each byte, in byte
order: the stream that the nested loop of the bit response parser walks. -/
def allBits (bytes : List Nat) : List Bool :=
  bytes.flatMap (fun b => (List.range 8).map (Nat.testBit b))

/-- Pairs a list of values with consecutive indices from start upward:
models values.push(Indexed::new(count + request.start, value)) with the
running counter count folded into the start argument. -/
def withIndices {α : Type} (start : Nat) : List α → List (Indexed α)
  | [] => []
  | v :: rest => Indexed.new start v :: withIndices (start + 1) rest

/-- Bit-read response parser (client_response_parsers.rs, ParseResponse of
AddressRange for Vec of Indexed of bool).  The nested source loop walks
the bits of the read bytes low-order first and returns early once
request.count values have been pushed; taking request.count elements of
allBits is that loop, since the earlier checks make the byte slice exactly
ceil(count/8) long so the bit stream never runs out before count. -/
def Vec_Indexed_bool.parse_response (cursor : ReadCursor) (request : AddressRange) :
    Except Error (List (Indexed Bool) × ReadCursor) := do
  let (byte_count, cursor) ← liftParse cursor.read_u8
  let expected_byte_count := num_bytes_for_bits request.count
  if byte_count ≠ expected_byte_count then
    .error (.BadResponse (.RequestByteCountMismatch expected_byte_count byte_count))
  else if byte_count ≠ cursor.len then
    .error (.BadResponse (.InsufficientBytesForByteCount byte_count cursor.len))
  else do
    let (bytes, cursor) ← liftParse (cursor.read_bytes byte_count)
    .ok (withIndices request.start ((allBits bytes).take request.count), cursor)

/-- Register pair reader: models the source while loop
while !cursor.is_empty() { values.push(Indexed::new(index,
cursor.read_u16_be()?)); index += 1 }, recursing on the remaining cursor
bytes.  A trailing odd byte makes read_u16_be fail with
InsufficientBytes, exactly as in the source. -/
def read_register_values : List Nat → Nat → Except ADUParseError (List (Indexed Nat))
  | [], _ => .ok []
  | [_], _ => .error .InsufficientBytes
  | high :: low :: rest, index => do
      let tail ← read_register_values rest (index + 1)
      .ok (Indexed.new index (high * 256 + low) :: tail)

/-- Register-read response parser (client_response_parsers.rs,
ParseResponse of AddressRange for Vec of Indexed of u16).  Note the second
check compares expected_byte_count (not byte_count) with cursor.len, as
the source does. -/
def Vec_Indexed_u16.parse_response (cursor : ReadCursor) (request : AddressRange) :
    Except Error (List (Indexed Nat) × ReadCursor) := do
  let (byte_count, cursor) ← liftParse cursor.read_u8
  let expected_byte_count := 2 * request.count
  if byte_count ≠ expected_byte_count then
    .error (.BadResponse (.RequestByteCountMismatch expected_byte_count byte_count))
  else if expected_byte_count ≠ cursor.len then
    .error (.BadResponse (.InsufficientBytesForByteCount byte_count cursor.len))
  else do
    let values ← liftParse (read_register_values cursor.bytes request.start)
    .ok (values, ⟨[]⟩)

/-- Modelled from the spec: AddressRange::parse (the ParseRequest impl is
not under src).  The write-multiple response body is start:u16, count:u16
(section 4.2 table); the decoded pair is validated through
AddressRange::try_from, whose InvalidRange error converts into the
request-side error as in to_address_range. -/
def AddressRange.parse (cursor : ReadCursor) :
    Except Error (AddressRange × ReadCursor) := do
  let (start, cursor) ← liftParse cursor.read_u16_be
  let (count, cursor) ← liftParse cursor.read_u16_be
  match AddressRange.try_from start count with
  | .ok r => .ok (r, cursor)
  | .error e => .error (.BadRequest (.BadRange e))

/-- Write-multiple echo parser (client_response_parsers.rs, ParseResponse
of WriteMultiple of bool / of u16 for AddressRange; the two impls have
identical bodies, so one polymorphic definition stands for both).  The
request range is re-derived first, so a request-side validity error is
returned before any response byte is read. -/
def WriteMultiple.parse_response {α : Type} (cursor : ReadCursor)
    (request : WriteMultiple α) : Except Error (AddressRange × ReadCursor) := do
  let range ← match request.to_address_range with
    | .ok r => pure r
    | .error e => .error (.BadRequest e)
  let (parsed, cursor) ← AddressRange.parse cursor
  if range ≠ parsed then
    .error (.BadResponse .ReplyEchoMismatch)
  else
    .ok (parsed, cursor)

/-- Byte of a buffer at a position, 0 past the end; a total view of
bytes.get used to state expected parser outputs. -/
def byteAt (bytes : List Nat) (n : Nat) : Nat := (bytes.get? n).getD 0

/-- Bit n of a packed bit buffer, low-order bit first within each byte:
bit n lives in byte n / 8 at bit position n % 8. -/
def bitAt (bytes : List Nat) (n : Nat) : Bool :=
  Nat.testBit (byteAt bytes (n / 8)) (n % 8)

/-- Register i of a big-endian register buffer: high byte at 2i, low byte
at 2i + 1. -/
def regAt (bytes : List Nat) (i : Nat) : Nat :=
  byteAt bytes (2 * i) * 256 + byteAt bytes (2 * i + 1)

/-- DER-encoded certificate, as rustls::Certificate wraps its bytes
(src/rodbus/src/tcp/tls/client.rs compares certificates by this value). -/
structure Certificate where
  der : List Nat
deriving DecidableEq

/-- Modelled from the spec: the validity window of a parsed certificate
(the rx509 crate is an external collaborator; the spec says validity dates
are still checked in self-signed mode).  Times are seconds since epoch. -/
structure Validity where
  not_before : Nat
  not_after : Nat
deriving DecidableEq

/-- Modelled from the spec: a validity window holds at a given time when
the time lies between the bounds (rx509 Validity::is_valid). -/
def Validity.is_valid (v : Validity) (now : Nat) : Bool :=
  decide (v.not_before ≤ now ∧ now ≤ v.not_after)

/-- Outcomes of the self-signed verifier, one constructor per distinct
rustls::Error value produced in
src/rodbus/src/tcp/tls/client.rs, SelfSignedCertificateServerCertVerifier. -/
inductive TlsVerifyError where
  | UnexpectedIntermediates (count : Nat) : TlsVerifyError
  | CertificateMismatch : TlsVerifyError
  | ParseFailure : TlsVerifyError
  | CurrentlyNotValid : TlsVerifyError
deriving DecidableEq

/-- The self-signed verifier policy object holding the single
preconfigured certificate (TlsClientConfig::new, SelfSigned branch,
guarantees exactly one). -/
structure SelfSignedCertificateServerCertVerifier where
  cert : Certificate
deriving DecidableEq

/-- Self-signed certificate verification
(src/rodbus/src/tcp/tls/client.rs, verify_server_cert): reject any
intermediate certificate, require the end-entity certificate byte-equal to
the configured one, then parse it (the external rx509 parser is passed in
as a function) and require the validity window to contain the current
time.  The server name argument is received but, as in the source, never
consulted. -/
def SelfSignedCertificateServerCertVerifier.verify_server_cert
    (parse : List Nat → Option Validity)
    (verifier : SelfSignedCertificateServerCertVerifier)
    (end_entity : Certificate) (intermediates : List Certificate)
    (server_name : List Nat) (now : Nat) : Except TlsVerifyError Unit :=
  if ¬ intermediates.isEmpty then
    .error (.UnexpectedIntermediates intermediates.length)
  else if end_entity ≠ verifier.cert then
    .error .CertificateMismatch
  else
    match parse end_entity.der with
    | none => .error .ParseFailure
    | some validity =>
        if ¬ validity.is_valid now then
          .error .CurrentlyNotValid
        else
          .ok ()

/-! Theorems settling the claims. -/

/-- C4: for every pair of 16-bit values, AddressRange::try_from returns
CountOfZero exactly when count = 0, AddressOverflow(start,count) exactly
when count ≥ 1 and start + count > 0x10000 in unbounded arithmetic, and
otherwise Ok of the range with exactly those fields; hence every
successfully constructed range satisfies count ≥ 1 and
start + count ≤ 0x10000. -/
theorem addressRange_try_from_spec (start count : Nat)
    (hs : start < 65536) (hc : count < 65536) :
    (AddressRange.try_from start count = .error .CountOfZero ↔ count = 0) ∧
    (AddressRange.try_from start count = .error (.AddressOverflow start count) ↔
      1 ≤ count ∧ start + count > 65536) ∧
    (1 ≤ count → start + count ≤ 65536 →
      AddressRange.try_from start count = .ok ⟨start, count⟩) ∧
    (∀ r, AddressRange.try_from start count = .ok r →
      r.start = start ∧ r.count = count ∧ 1 ≤ r.count ∧ r.start + r.count ≤ 65536) := by
  refine ⟨?_, ?_, ?_, ?_⟩
  · constructor
    · intro h
      by_contra hne
      simp only [AddressRange.try_from, if_neg hne] at h
      split at h <;> simp_all
    · intro h
      simp [AddressRange.try_from, h]
  · constructor
    · intro h
      simp only [AddressRange.try_from] at h
      split at h
      · simp_all
      · rename_i hne
        split at h
        · rename_i hgt
          omega
        · simp_all
    · rintro ⟨h1, h2⟩
      have hne : ¬ count = 0 := by omega
      have hgt : start > 0xFFFF - (count - 1) := by omega
      simp [AddressRange.try_from, hne, hgt]
  · intro h1 h2
    have hne : ¬ count = 0 := by omega
    have hle : ¬ start > 0xFFFF - (count - 1) := by omega
    simp [AddressRange.try_from, hne, hle]
  · intro r hr
    simp only [AddressRange.try_from] at hr
    split at hr
    · simp_all
    · rename_i hne
      split at hr
      · simp_all
      · rename_i hle
        simp only [Except.ok.injEq] at hr
        subst hr
        refine ⟨rfl, rfl, ?_, ?_⟩
        · show 1 ≤ count
          omega
        · show start + count ≤ 65536
          omega

/-- Witness for C4: at start 0xFFFF, count 1 the constructor succeeds with
exactly those fields. -/
theorem addressRange_try_from_spec_witness :
    AddressRange.try_from 0xFFFF 1 = .ok ⟨0xFFFF, 1⟩ :=
  (addressRange_try_from_spec 0xFFFF 1 (by decide) (by decide)).2.2.1
    (by decide) (by decide)

/-- C6: the single-coil value mapping is a partial round trip: true maps
to 0xFF00 and false to 0x0000, decoding an encoded coil returns the coil,
and decoding any other 16-bit value fails with UnknownCoilState of that
value. -/
theorem coil_mapping_spec :
    coil_to_u16 true = 0xFF00 ∧
    coil_to_u16 false = 0x0000 ∧
    (∀ b : Bool, coil_from_u16 (coil_to_u16 b) = .ok b) ∧
    (∀ v : Nat, v < 65536 → v ≠ 0xFF00 → v ≠ 0x0000 →
      coil_from_u16 v = .error (.UnknownCoilState v)) := by
  refine ⟨rfl, rfl, ?_, ?_⟩
  · intro b
    cases b <;> rfl
  · intro v hv h1 h2
    simp [coil_from_u16, coil.ON, coil.OFF, h1, h2]

/-- Witness for C6: 0x0001 is neither coil encoding and decodes to
UnknownCoilState(1). -/
theorem coil_mapping_spec_witness :
    coil_from_u16 1 = .error (.UnknownCoilState 1) :=
  coil_mapping_spec.2.2.2 1 (by decide) (by decide) (by decide)

/-- C5: for every valid AddressRange the per-function pre-flight check
fails with CountTooBigForType(count, max) exactly when count exceeds the
per-function maximum (2000 bit reads, 125 register reads, 1968
write-multiple coils, 123 write-multiple registers) and returns Ok
otherwise; in particular a bit-read range of count 3000 is rejected as
CountTooBigForType(3000, 2000). -/
theorem preflight_validation_spec :
    (∀ s c r, AddressRange.try_from s c = .ok r →
      (check_validity_for_read_bits r =
        if 2000 < r.count then .error (.CountTooBigForType r.count 2000) else .ok ()) ∧
      (check_validity_for_read_registers r =
        if 125 < r.count then .error (.CountTooBigForType r.count 125) else .ok ()) ∧
      (check_validity_for_write_multiple_coils r =
        if 1968 < r.count then .error (.CountTooBigForType r.count 1968) else .ok ()) ∧
      (check_validity_for_write_multiple_registers r =
        if 123 < r.count then .error (.CountTooBigForType r.count 123) else .ok ())) ∧
    (∀ r, AddressRange.try_from 0 3000 = .ok r →
      check_validity_for_read_bits r = .error (.CountTooBigForType 3000 2000)) := by
  constructor
  · intro s c r _
    exact ⟨rfl, rfl, rfl, rfl⟩
  · intro r hr
    have h0 : AddressRange.try_from 0 3000 = .ok ⟨0, 3000⟩ := by decide
    rw [h0] at hr
    simp only [Except.ok.injEq] at hr
    subst hr
    rfl

/-- Witness for C5: the pre-flight rejection of a bit read of count 3000. -/
theorem preflight_validation_spec_witness :
    check_validity_for_read_bits ⟨0, 3000⟩ = .error (.CountTooBigForType 3000 2000) :=
  preflight_validation_spec.2 ⟨0, 3000⟩ (by decide)

/-- C7: for every byte buffer and valid AddressRange, BitIterator::create
succeeds exactly when the buffer holds at least ceil(count/8) bytes and
fails with BadBitIteratorArgs otherwise, while RegisterIterator::create
succeeds exactly when the buffer holds exactly 2 * count bytes and fails
with BadRegisterIteratorArgs otherwise. -/
theorem iterator_create_spec (bytes : List Nat) (s c : Nat) (range : AddressRange)
    (hr : AddressRange.try_from s c = .ok range) :
    ((∃ it, BitIterator.create bytes range = .ok it) ↔
      num_bytes_for_bits range.count ≤ bytes.length) ∧
    (bytes.length < num_bytes_for_bits range.count →
      BitIterator.create bytes range = .error .BadBitIteratorArgs) ∧
    ((∃ it, RegisterIterator.create bytes range = .ok it) ↔
      bytes.length = 2 * range.count) ∧
    (bytes.length ≠ 2 * range.count →
      RegisterIterator.create bytes range = .error .BadRegisterIteratorArgs) := by
  refine ⟨?_, ?_, ?_, ?_⟩
  · constructor
    · rintro ⟨it, hit⟩
      simp only [BitIterator.create] at hit
      split at hit <;> simp_all
    · intro h
      refine ⟨⟨bytes, range, 0⟩, ?_⟩
      simp [BitIterator.create]
      omega
  · intro h
    simp [BitIterator.create, h]
  · constructor
    · rintro ⟨it, hit⟩
      simp only [RegisterIterator.create] at hit
      split at hit <;> simp_all
    · intro h
      refine ⟨⟨bytes, range, 0⟩, ?_⟩
      simp [RegisterIterator.create, h]
  · intro h
    simp [RegisterIterator.create, h]

/-- Witness for C7: with a one-byte buffer, a 3-bit range builds a bit
iterator, and the same buffer is rejected for a 1-register range. -/
theorem iterator_create_spec_witness :
    BitIterator.create [5] ⟨0, 3⟩ = .ok ⟨[5], ⟨0, 3⟩, 0⟩ ∧
    RegisterIterator.create [5] ⟨0, 1⟩ = .error .BadRegisterIteratorArgs := by
  constructor
  · have h := (iterator_create_spec [5] 0 3 ⟨0, 3⟩ (by decide)).1.mpr (by decide)
    obtain ⟨it, hit⟩ := h
    have : it = ⟨[5], ⟨0, 3⟩, 0⟩ := by
      simp only [BitIterator.create] at hit
      split at hit <;> simp_all
    rw [← this]
    exact hit
  · exact (iterator_create_spec [5] 0 1 ⟨0, 1⟩ (by decide)).2.2.2 (by decide)

/-- C3 counterexample: the claim says the echo body 00 05 00 01 against
the request Indexed(5, true) yields ReplyEchoMismatch, but the coil value
0x0001 fails coil_from_u16 first, so the parser returns
UnknownCoilState(1) and not ReplyEchoMismatch. -/
theorem write_single_coil_echo_counterexample :
    Indexed_bool.parse_response ⟨[0x00, 0x05, 0x00, 0x01]⟩ (Indexed.new 5 true) =
      .error (.BadResponse (.UnknownCoilState 1)) ∧
    Indexed_bool.parse_response ⟨[0x00, 0x05, 0x00, 0x01]⟩ (Indexed.new 5 true) ≠
      .error (.BadResponse .ReplyEchoMismatch) := by
  constructor
  · rfl
  · decide

/-- C3 as amended: against the request Indexed(5, true) an identical echo
body 00 05 FF 00 yields Ok(Indexed(5, true)); the echo whose value field
is 00 01 yields UnknownCoilState(1), because 0x0001 is not a legal coil
encoding; and any echo that decodes (through coil_from_u16) to an
address/value pair unequal to the request yields ReplyEchoMismatch. -/
theorem write_single_coil_echo_spec :
    (Indexed_bool.parse_response ⟨[0x00, 0x05, 0xFF, 0x00]⟩ (Indexed.new 5 true) =
      .ok (Indexed.new 5 true, ⟨[]⟩)) ∧
    (Indexed_bool.parse_response ⟨[0x00, 0x05, 0x00, 0x01]⟩ (Indexed.new 5 true) =
      .error (.BadResponse (.UnknownCoilState 1))) ∧
    (∀ (a1 a0 v1 v0 : Nat) (rest : List Nat) (request : Indexed Bool) (val : Bool),
      coil_from_u16 (v1 * 256 + v0) = .ok val →
      Indexed.new (a1 * 256 + a0) val ≠ request →
      Indexed_bool.parse_response ⟨a1 :: a0 :: v1 :: v0 :: rest⟩ request =
        .error (.BadResponse .ReplyEchoMismatch)) := by
  refine ⟨rfl, rfl, ?_⟩
  intro a1 a0 v1 v0 rest request val hcoil hne
  simp only [Indexed_bool.parse_response, ReadCursor.read_u16_be, liftParse, hcoil,
    bind, Except.bind]
  simp [hne]

/-- Witness for C3: an echo carrying the wrong address, 00 06 FF 00,
decodes cleanly and then fails the echo comparison. -/
theorem write_single_coil_echo_spec_witness :
    Indexed_bool.parse_response ⟨[0x00, 0x06, 0xFF, 0x00]⟩ (Indexed.new 5 true) =
      .error (.BadResponse .ReplyEchoMismatch) :=
  write_single_coil_echo_spec.2.2 0 6 0xFF 0 [] (Indexed.new 5 true) true
    (by decide) (by decide)

/-- C9: the self-signed verifier accepts exactly when no intermediate
certificates are presented, the end-entity certificate is byte-for-byte
the preconfigured one, and its validity window contains the current time;
it rejects whenever intermediates are present or the certificate differs;
and the server name argument never influences the result. -/
theorem self_signed_verify_spec (parse : List Nat → Option Validity)
    (verifier : SelfSignedCertificateServerCertVerifier)
    (end_entity : Certificate) (intermediates : List Certificate)
    (server_name : List Nat) (now : Nat) :
    (SelfSignedCertificateServerCertVerifier.verify_server_cert parse verifier
        end_entity intermediates server_name now = .ok () ↔
      intermediates = [] ∧ end_entity = verifier.cert ∧
        ∃ v, parse end_entity.der = some v ∧ v.is_valid now = true) ∧
    (intermediates ≠ [] →
      SelfSignedCertificateServerCertVerifier.verify_server_cert parse verifier
          end_entity intermediates server_name now =
        .error (.UnexpectedIntermediates intermediates.length)) ∧
    (intermediates = [] → end_entity ≠ verifier.cert →
      SelfSignedCertificateServerCertVerifier.verify_server_cert parse verifier
          end_entity intermediates server_name now = .error .CertificateMismatch) ∧
    (∀ other_name : List Nat,
      SelfSignedCertificateServerCertVerifier.verify_server_cert parse verifier
          end_entity intermediates server_name now =
        SelfSignedCertificateServerCertVerifier.verify_server_cert parse verifier
          end_entity intermediates other_name now) := by
  refine ⟨?_, ?_, ?_, fun _ => rfl⟩
  · constructor
    · intro h
      simp only [SelfSignedCertificateServerCertVerifier.verify_server_cert] at h
      split at h
      · simp_all
      · rename_i hint
        split at h
        · simp_all
        · rename_i hcert
          simp only [not_not] at hcert
          cases hp : parse end_entity.der with
          | none => rw [hp] at h; simp_all
          | some v =>
              rw [hp] at h
              split at h
              · simp_all
              · rename_i hval
                refine ⟨?_, hcert, v, rfl, ?_⟩
                · simpa [not_not, List.isEmpty_iff] using hint
                · simp_all
    · rintro ⟨hint, hcert, v, hp, hval⟩
      subst hint
      subst hcert
      simp [SelfSignedCertificateServerCertVerifier.verify_server_cert, hp, hval]
  · intro hint
    have : ¬ intermediates.isEmpty = true := by
      simpa [List.isEmpty_iff] using hint
    simp [SelfSignedCertificateServerCertVerifier.verify_server_cert, this]
  · intro hint hcert
    subst hint
    simp [SelfSignedCertificateServerCertVerifier.verify_server_cert, hcert]

/-- Witness for C9: a verifier configured with certificate der [1, 2]
accepts that very certificate with no intermediates under a parser placing
now = 5 inside the validity window. -/
theorem self_signed_verify_spec_witness :
    SelfSignedCertificateServerCertVerifier.verify_server_cert
        (fun _ => some ⟨0, 10⟩) ⟨⟨[1, 2]⟩⟩ ⟨[1, 2]⟩ [] [] 5 = .ok () :=
  (self_signed_verify_spec (fun _ => some ⟨0, 10⟩) ⟨⟨[1, 2]⟩⟩ ⟨[1, 2]⟩ [] [] 5).1.mpr
    ⟨rfl, rfl, ⟨0, 10⟩, rfl, by decide⟩

/-- C10: the write-multiple echo parser re-derives the request range
first, so a request whose value list is empty, longer than 0xFFFF, or
overflowing the address space makes the parser return that request-side
error, for every cursor alike (no response byte is consumed), and never
ReplyEchoMismatch. -/
theorem write_multiple_echo_request_error_spec :
    (∀ (α : Type) (w : WriteMultiple α) (e : InvalidRequest),
      w.to_address_range = .error e →
      ∀ cursor : ReadCursor,
        WriteMultiple.parse_response cursor w = .error (.BadRequest e)) ∧
    (∀ w : WriteMultiple Bool, w.values = [] →
      ∀ cursor : ReadCursor,
        WriteMultiple.parse_response cursor w =
          .error (.BadRequest (.BadRange .CountOfZero))) ∧
    (∀ w : WriteMultiple Nat, 0xFFFF < w.values.length →
      ∀ cursor : ReadCursor,
        WriteMultiple.parse_response cursor w =
          .error (.BadRequest (.CountTooBigForU16 w.values.length))) ∧
    (∀ w : WriteMultiple Bool, w.values ≠ [] → w.values.length ≤ 0xFFFF →
      0x10000 < w.start + w.values.length →
      ∀ cursor : ReadCursor,
        WriteMultiple.parse_response cursor w =
          .error (.BadRequest (.BadRange (.AddressOverflow w.start w.values.length)))) := by
  have base : ∀ (α : Type) (w : WriteMultiple α) (e : InvalidRequest),
      w.to_address_range = .error e →
      ∀ cursor : ReadCursor,
        WriteMultiple.parse_response cursor w = .error (.BadRequest e) := by
    intro α w e he cursor
    simp [WriteMultiple.parse_response, he, Bind.bind, Except.bind]
  refine ⟨base, ?_, ?_, ?_⟩
  · intro w hw cursor
    refine base Bool w _ ?_ cursor
    simp [WriteMultiple.to_address_range, hw, AddressRange.try_from]
  · intro w hw cursor
    refine base Nat w _ ?_ cursor
    simp only [WriteMultiple.to_address_range]
    rw [if_neg (by omega)]
  · intro w hw hlen hover cursor
    refine base Bool w _ ?_ cursor
    have hne : ¬ w.values.length = 0 := by
      simpa [List.length_eq_zero] using hw
    have hgt : w.start > 0xFFFF - (w.values.length - 1) := by omega
    simp [WriteMultiple.to_address_range, hlen, AddressRange.try_from, hne, hgt]

/-- Witness for C10: a write-multiple request with no values is rejected
with CountOfZero whatever bytes the response cursor holds. -/
theorem write_multiple_echo_request_error_spec_witness :
    WriteMultiple.parse_response ⟨[1, 2, 3, 4]⟩ (⟨7, []⟩ : WriteMultiple Bool) =
      .error (.BadRequest (.BadRange .CountOfZero)) :=
  write_multiple_echo_request_error_spec.2.1 ⟨7, []⟩ rfl ⟨[1, 2, 3, 4]⟩

/-! Helper lemmas characterising the packed-bit and packed-register views. -/

theorem allBits_cons (b : Nat) (rest : List Nat) :
    allBits (b :: rest) = (List.range 8).map (Nat.testBit b) ++ allBits rest := rfl

theorem allBits_length (bytes : List Nat) : (allBits bytes).length = 8 * bytes.length := by
  induction bytes with
  | nil => rfl
  | cons b rest ih =>
      simp only [allBits_cons, List.length_append, List.length_map, List.length_range,
        List.length_cons, ih]
      omega

theorem byteAt_cons_succ (a : Nat) (l : List Nat) (n : Nat) :
    byteAt (a :: l) (n + 1) = byteAt l n := rfl

theorem bitAt_cons_shift (b : Nat) (rest : List Nat) (n : Nat) (h : 8 ≤ n) :
    bitAt (b :: rest) n = bitAt rest (n - 8) := by
  have h1 : n / 8 = (n - 8) / 8 + 1 := by omega
  have h2 : n % 8 = (n - 8) % 8 := by omega
  rw [bitAt, h1, h2, byteAt_cons_succ]
  rfl

theorem allBits_get (bytes : List Nat) (n : Nat) (h : n < 8 * bytes.length) :
    (allBits bytes).get? n = some (bitAt bytes n) := by
  induction bytes generalizing n with
  | nil => simp at h
  | cons b rest ih =>
      rw [allBits_cons]
      by_cases hn : n < 8
      · rw [List.get?_append (by simpa using hn)]
        rw [List.get?_map, List.get?_range hn]
        have hdiv : n / 8 = 0 := by omega
        have hmod : n % 8 = n := by omega
        simp [bitAt, hdiv, hmod, byteAt]
      · rw [List.get?_append_right (by simpa using hn)]
        have hlen : n - (List.length ((List.range 8).map (Nat.testBit b))) = n - 8 := by
          simp
        rw [hlen, ih (n - 8) (by simp at h; omega)]
        rw [bitAt_cons_shift b rest n (by omega)]

theorem withIndices_eq_map_get (l : List Bool) :
    ∀ (f : Nat → Bool) (start : Nat), (∀ i, i < l.length → l.get? i = some (f i)) →
    withIndices start l =
      (List.range l.length).map (fun i => Indexed.new (start + i) (f i)) := by
  induction l with
  | nil =>
      intro f start _
      rfl
  | cons v rest ih =>
      intro f start hf
      have h0 : v = f 0 := by
        have := hf 0 (by simp)
        simpa using this
      have hrest : ∀ i, i < rest.length → rest.get? i = some ((fun j => f (j + 1)) i) := by
        intro i hi
        have := hf (i + 1) (by simp; omega)
        simpa using this
      have ihr := ih (fun j => f (j + 1)) (start + 1) hrest
      have hfun : (fun i => Indexed.new (start + 1 + i) (f (i + 1))) =
          ((fun i => Indexed.new (start + i) (f i)) ∘ Nat.succ) := by
        funext i
        simp only [Function.comp]
        congr 1
        omega
      simp only [withIndices, ihr, List.length_cons, List.range_succ_eq_map,
        List.map_cons, List.map_map]
      rw [h0, hfun]
      rfl

theorem withIndices_take_allBits (bytes : List Nat) (count start : Nat)
    (h : count ≤ 8 * bytes.length) :
    withIndices start ((allBits bytes).take count) =
      (List.range count).map (fun i => Indexed.new (start + i) (bitAt bytes i)) := by
  have hlen : ((allBits bytes).take count).length = count := by
    rw [List.length_take, allBits_length]
    omega
  have hget : ∀ i, i < ((allBits bytes).take count).length →
      ((allBits bytes).take count).get? i = some (bitAt bytes i) := by
    intro i hi
    rw [hlen] at hi
    rw [List.get?_take hi, allBits_get bytes i (by omega)]
  have := withIndices_eq_map_get ((allBits bytes).take count) (fun i => bitAt bytes i) start hget
  rw [this, hlen]

theorem regAt_cons₂ (a b : Nat) (l : List Nat) (i : Nat) :
    regAt (a :: b :: l) (i + 1) = regAt l i := rfl

theorem read_register_values_spec :
    ∀ (count : Nat) (bytes : List Nat) (index : Nat), bytes.length = 2 * count →
    read_register_values bytes index =
      .ok ((List.range count).map (fun i => Indexed.new (index + i) (regAt bytes i))) := by
  intro count
  induction count with
  | zero =>
      intro bytes index h
      have hnil : bytes = [] := List.length_eq_zero.mp (by omega)
      subst hnil
      rfl
  | succ k ih =>
      intro bytes index h
      obtain ⟨hi, lo, rest, rfl⟩ : ∃ hi lo rest, bytes = hi :: lo :: rest := by
        cases bytes with
        | nil => simp at h
        | cons x t =>
            cases t with
            | nil => simp at h; omega
            | cons y rest => exact ⟨x, y, rest, rfl⟩
      have hr : rest.length = 2 * k := by
        simp only [List.length_cons] at h
        omega
      have hfun : (fun i => Indexed.new (index + 1 + i) (regAt rest i)) =
          ((fun i => Indexed.new (index + i) (regAt (hi :: lo :: rest) i)) ∘ Nat.succ) := by
        funext i
        simp only [Function.comp]
        rw [show regAt (hi :: lo :: rest) (Nat.succ i) = regAt rest i from rfl]
        congr 1
        omega
      simp only [read_register_values, ih rest (index + 1) hr, Bind.bind, Except.bind]
      rw [List.range_succ_eq_map, List.map_cons, List.map_map, hfun]
      rfl

/-- C1: a bit-read response against a request AddressRange(start, count)
fails with RequestByteCountMismatch(ceil(count/8), declared) when the
declared byte count differs from ceil(count/8), fails with
InsufficientBytesForByteCount when the declared count differs from the
remaining bytes, and otherwise yields exactly count Indexed booleans with
consecutive indices from start, bits taken low-order first within each
byte and trailing bits of the last byte ignored; the body 01 05 against
AddressRange(0, 3) yields [(0, true), (1, false), (2, true)]. -/
theorem read_bits_response_spec :
    (∀ (declared : Nat) (rest : List Nat) (request : AddressRange),
      declared ≠ num_bytes_for_bits request.count →
      Vec_Indexed_bool.parse_response ⟨declared :: rest⟩ request =
        .error (.BadResponse
          (.RequestByteCountMismatch (num_bytes_for_bits request.count) declared))) ∧
    (∀ (declared : Nat) (rest : List Nat) (request : AddressRange),
      declared = num_bytes_for_bits request.count → declared ≠ rest.length →
      Vec_Indexed_bool.parse_response ⟨declared :: rest⟩ request =
        .error (.BadResponse (.InsufficientBytesForByteCount declared rest.length))) ∧
    (∀ (rest : List Nat) (request : AddressRange),
      num_bytes_for_bits request.count = rest.length →
      Vec_Indexed_bool.parse_response ⟨num_bytes_for_bits request.count :: rest⟩ request =
        .ok ((List.range request.count).map
          (fun i => Indexed.new (request.start + i) (bitAt rest i)), ⟨[]⟩)) ∧
    (Vec_Indexed_bool.parse_response ⟨[0x01, 0x05]⟩ ⟨0, 3⟩ =
      .ok ([Indexed.new 0 true, Indexed.new 1 false, Indexed.new 2 true], ⟨[]⟩)) := by
  refine ⟨?_, ?_, ?_, by decide⟩
  · intro declared rest request hne
    simp [Vec_Indexed_bool.parse_response, ReadCursor.read_u8, liftParse,
      Bind.bind, Except.bind, hne]
  · intro declared rest request heq hlen
    subst heq
    simp [Vec_Indexed_bool.parse_response, ReadCursor.read_u8, liftParse,
      Bind.bind, Except.bind, ReadCursor.len, hlen]
  · intro rest request heq
    have hcount : request.count ≤ 8 * rest.length := by
      simp only [num_bytes_for_bits] at heq
      omega
    simp only [Vec_Indexed_bool.parse_response, ReadCursor.read_u8, liftParse,
      Bind.bind, Except.bind, ReadCursor.len, ReadCursor.read_bytes, heq]
    rw [if_neg (by simp), if_neg (by simp), if_pos (by simp)]
    simp only [List.take_length, List.drop_length]
    rw [withIndices_take_allBits rest request.count request.start hcount]

/-- Witness for C1: declared byte count 2 against a 3-bit request whose
expected byte count is 1. -/
theorem read_bits_response_spec_witness :
    Vec_Indexed_bool.parse_response ⟨[2, 0, 0]⟩ ⟨0, 3⟩ =
      .error (.BadResponse (.RequestByteCountMismatch 1 2)) :=
  read_bits_response_spec.1 2 [0, 0] ⟨0, 3⟩ (by decide)

/-- C2: a register-read response against a request AddressRange(start,
count) fails with RequestByteCountMismatch(2 * count, declared) when the
declared byte count differs from 2 * count, fails with
InsufficientBytesForByteCount when 2 * count differs from the remaining
bytes, and otherwise yields exactly count Indexed 16-bit values decoded
big-endian with consecutive indices from start; the body 04 FF FF 01 CC
against AddressRange(1, 2) yields [(1, 0xFFFF), (2, 0x01CC)]. -/
theorem read_registers_response_spec :
    (∀ (declared : Nat) (rest : List Nat) (request : AddressRange),
      declared ≠ 2 * request.count →
      Vec_Indexed_u16.parse_response ⟨declared :: rest⟩ request =
        .error (.BadResponse (.RequestByteCountMismatch (2 * request.count) declared))) ∧
    (∀ (declared : Nat) (rest : List Nat) (request : AddressRange),
      declared = 2 * request.count → 2 * request.count ≠ rest.length →
      Vec_Indexed_u16.parse_response ⟨declared :: rest⟩ request =
        .error (.BadResponse (.InsufficientBytesForByteCount declared rest.length))) ∧
    (∀ (rest : List Nat) (request : AddressRange),
      2 * request.count = rest.length →
      Vec_Indexed_u16.parse_response ⟨2 * request.count :: rest⟩ request =
        .ok ((List.range request.count).map
          (fun i => Indexed.new (request.start + i) (regAt rest i)), ⟨[]⟩)) ∧
    (Vec_Indexed_u16.parse_response ⟨[0x04, 0xFF, 0xFF, 0x01, 0xCC]⟩ ⟨1, 2⟩ =
      .ok ([Indexed.new 1 0xFFFF, Indexed.new 2 0x01CC], ⟨[]⟩)) := by
  refine ⟨?_, ?_, ?_, by decide⟩
  · intro declared rest request hne
    simp [Vec_Indexed_u16.parse_response, ReadCursor.read_u8, liftParse,
      Bind.bind, Except.bind, hne]
  · intro declared rest request heq hlen
    subst heq
    simp [Vec_Indexed_u16.parse_response, ReadCursor.read_u8, liftParse,
      Bind.bind, Except.bind, ReadCursor.len, hlen]
  · intro rest request heq
    simp only [Vec_Indexed_u16.parse_response, ReadCursor.read_u8, liftParse,
      Bind.bind, Except.bind, ReadCursor.len, heq]
    rw [if_neg (by simp), if_neg (by simp)]
    rw [read_register_values_spec request.count rest request.start heq.symm]

/-- Witness for C2: declared byte count 3 cannot match 2 * count for any
count, here count 2 expecting 4 bytes. -/
theorem read_registers_response_spec_witness :
    Vec_Indexed_u16.parse_response ⟨[3, 0, 0, 0]⟩ ⟨1, 2⟩ =
      .error (.BadResponse (.RequestByteCountMismatch 4 3)) :=
  read_registers_response_spec.1 3 [0, 0, 0] ⟨1, 2⟩ (by decide)

/-! Helper lemmas for the iterator claims. -/

theorem bit_next_none (it : BitIterator) (h : it.pos = it.range.count) :
    it.next = none := by
  simp [BitIterator.next, h]

theorem bit_next_lt (it : BitIterator) (h : it.pos < it.range.count)
    (hb : it.range.count ≤ 8 * it.bytes.length) :
    it.next = some (bitAt it.bytes it.pos, ⟨it.bytes, it.range, it.pos + 1⟩) := by
  have hlt : it.pos / 8 < it.bytes.length := by omega
  have hv := List.get?_eq_get hlt
  simp only [BitIterator.next, if_neg (by omega : ¬ it.pos = it.range.count), hv]
  simp [bitAt, byteAt, List.getElem?_eq_getElem hlt]

theorem bit_toList_none (it : BitIterator) (h : it.next = none) : it.toList = [] := by
  rw [BitIterator.toList.eq_def]
  split
  · rfl
  · simp_all

theorem bit_toList_some (it : BitIterator) (v : Bool) (it2 : BitIterator)
    (h : it.next = some (v, it2)) : it.toList = v :: it2.toList := by
  rw [BitIterator.toList.eq_def]
  split
  · simp_all
  · simp_all

theorem bit_toList_of_inv : ∀ (n : Nat) (it : BitIterator),
    it.range.count - it.pos = n → it.pos ≤ it.range.count →
    it.range.count ≤ 8 * it.bytes.length →
    it.toList = (List.range n).map (fun i => bitAt it.bytes (it.pos + i)) := by
  intro n
  induction n with
  | zero =>
      intro it h _ _
      have hnone : it.next = none := bit_next_none it (by omega)
      simp [bit_toList_none it hnone]
  | succ k ih =>
      intro it h hle hb
      have hlt : it.pos < it.range.count := by omega
      rw [bit_toList_some it _ _ (bit_next_lt it hlt hb)]
      have ihr := ih ⟨it.bytes, it.range, it.pos + 1⟩
        (by show it.range.count - (it.pos + 1) = k; omega)
        (by show it.pos + 1 ≤ it.range.count; omega)
        (by show it.range.count ≤ 8 * it.bytes.length; exact hb)
      rw [ihr]
      dsimp only
      have hfun : (fun i => bitAt it.bytes (it.pos + 1 + i)) =
          ((fun i => bitAt it.bytes (it.pos + i)) ∘ Nat.succ) := by
        funext i
        simp only [Function.comp]
        congr 1
        omega
      rw [List.range_succ_eq_map, List.map_cons, List.map_map, hfun]
      rfl

theorem bit_stepN_inv : ∀ (k : Nat) (it it2 : BitIterator),
    it.pos ≤ it.range.count → it.range.count ≤ 8 * it.bytes.length →
    BitIterator.stepN k it = some it2 →
    it2.bytes = it.bytes ∧ it2.range = it.range ∧ it2.pos ≤ it.range.count := by
  intro k
  induction k with
  | zero =>
      intro it it2 h1 _ hs
      simp only [BitIterator.stepN, Option.some.injEq] at hs
      subst hs
      exact ⟨rfl, rfl, h1⟩
  | succ n ih =>
      intro it it2 h1 h2 hs
      simp only [BitIterator.stepN] at hs
      by_cases hlt : it.pos < it.range.count
      · rw [bit_next_lt it hlt h2] at hs
        dsimp only at hs
        have hinv := ih ⟨it.bytes, it.range, it.pos + 1⟩ it2
          (by show it.pos + 1 ≤ it.range.count; omega)
          (by show it.range.count ≤ 8 * it.bytes.length; exact h2) hs
        exact ⟨hinv.1, hinv.2.1, hinv.2.2⟩
      · rw [bit_next_none it (by omega)] at hs
        simp at hs

theorem reg_next_none (it : RegisterIterator) (h : it.pos = it.range.count) :
    it.next = none := by
  simp [RegisterIterator.next, h]

theorem reg_next_lt (it : RegisterIterator) (h : it.pos < it.range.count)
    (hb : 2 * it.range.count ≤ it.bytes.length) :
    it.next = some (regAt it.bytes it.pos, ⟨it.bytes, it.range, it.pos + 1⟩) := by
  have h1 : 2 * it.pos < it.bytes.length := by omega
  have h2 : 2 * it.pos + 1 < it.bytes.length := by omega
  have hv1 := List.get?_eq_get h1
  have hv2 := List.get?_eq_get h2
  simp only [RegisterIterator.next, if_neg (by omega : ¬ it.pos = it.range.count), hv1, hv2]
  simp [regAt, byteAt, List.getElem?_eq_getElem h1, List.getElem?_eq_getElem h2]

theorem reg_toList_none (it : RegisterIterator) (h : it.next = none) : it.toList = [] := by
  rw [RegisterIterator.toList.eq_def]
  split
  · rfl
  · simp_all

theorem reg_toList_some (it : RegisterIterator) (v : Nat) (it2 : RegisterIterator)
    (h : it.next = some (v, it2)) : it.toList = v :: it2.toList := by
  rw [RegisterIterator.toList.eq_def]
  split
  · simp_all
  · simp_all

theorem reg_toList_of_inv : ∀ (n : Nat) (it : RegisterIterator),
    it.range.count - it.pos = n → it.pos ≤ it.range.count →
    2 * it.range.count ≤ it.bytes.length →
    it.toList = (List.range n).map (fun i => regAt it.bytes (it.pos + i)) := by
  intro n
  induction n with
  | zero =>
      intro it h _ _
      have hnone : it.next = none := reg_next_none it (by omega)
      simp [reg_toList_none it hnone]
  | succ k ih =>
      intro it h hle hb
      have hlt : it.pos < it.range.count := by omega
      rw [reg_toList_some it _ _ (reg_next_lt it hlt hb)]
      have ihr := ih ⟨it.bytes, it.range, it.pos + 1⟩
        (by show it.range.count - (it.pos + 1) = k; omega)
        (by show it.pos + 1 ≤ it.range.count; omega)
        (by show 2 * it.range.count ≤ it.bytes.length; exact hb)
      rw [ihr]
      dsimp only
      have hfun : (fun i => regAt it.bytes (it.pos + 1 + i)) =
          ((fun i => regAt it.bytes (it.pos + i)) ∘ Nat.succ) := by
        funext i
        simp only [Function.comp]
        congr 1
        omega
      rw [List.range_succ_eq_map, List.map_cons, List.map_map, hfun]
      rfl

theorem reg_stepN_inv : ∀ (k : Nat) (it it2 : RegisterIterator),
    it.pos ≤ it.range.count → 2 * it.range.count ≤ it.bytes.length →
    RegisterIterator.stepN k it = some it2 →
    it2.bytes = it.bytes ∧ it2.range = it.range ∧ it2.pos ≤ it.range.count := by
  intro k
  induction k with
  | zero =>
      intro it it2 h1 _ hs
      simp only [RegisterIterator.stepN, Option.some.injEq] at hs
      subst hs
      exact ⟨rfl, rfl, h1⟩
  | succ n ih =>
      intro it it2 h1 h2 hs
      simp only [RegisterIterator.stepN] at hs
      by_cases hlt : it.pos < it.range.count
      · rw [reg_next_lt it hlt h2] at hs
        dsimp only at hs
        have hinv := ih ⟨it.bytes, it.range, it.pos + 1⟩ it2
          (by show it.pos + 1 ≤ it.range.count; omega)
          (by show 2 * it.range.count ≤ it.bytes.length; exact h2) hs
        exact ⟨hinv.1, hinv.2.1, hinv.2.2⟩
      · rw [reg_next_none it (by omega)] at hs
        simp at hs

/-- C8: for every validly constructed BitIterator or RegisterIterator,
the complete iteration yields exactly range.count items — booleans taken
low-order bit first within each byte, or big-endian 16-bit register values
— and at every reachable point of the iteration size_hint returns
(r, Some r) where r is exactly the number of items still to be yielded. -/
theorem iterator_iteration_spec (bytes : List Nat) (s c : Nat) (range : AddressRange)
    (hrange : AddressRange.try_from s c = .ok range) :
    (∀ it, BitIterator.create bytes range = .ok it →
      it.toList = (List.range range.count).map (fun i => bitAt bytes i) ∧
      it.toList.length = range.count ∧
      (∀ k it2, BitIterator.stepN k it = some it2 →
        it2.size_hint = (it2.toList.length, some it2.toList.length))) ∧
    (∀ it, RegisterIterator.create bytes range = .ok it →
      it.toList = (List.range range.count).map (fun i => regAt bytes i) ∧
      it.toList.length = range.count ∧
      (∀ k it2, RegisterIterator.stepN k it = some it2 →
        it2.size_hint = (it2.toList.length, some it2.toList.length))) := by
  constructor
  · intro it hit
    have hcre : num_bytes_for_bits range.count ≤ bytes.length ∧ it = ⟨bytes, range, 0⟩ := by
      simp only [BitIterator.create] at hit
      split at hit
      · simp_all
      · rename_i hlen
        simp only [Except.ok.injEq] at hit
        exact ⟨by omega, hit.symm⟩
    obtain ⟨hlen, rfl⟩ := hcre
    have hb : range.count ≤ 8 * bytes.length := by
      simp only [num_bytes_for_bits] at hlen
      omega
    have htl := bit_toList_of_inv range.count ⟨bytes, range, 0⟩
      (by show range.count - 0 = range.count; omega)
      (by show 0 ≤ range.count; omega)
      (by show range.count ≤ 8 * bytes.length; exact hb)
    refine ⟨?_, ?_, ?_⟩
    · rw [htl]
      apply List.map_congr_left
      intro i _
      show bitAt bytes (0 + i) = bitAt bytes i
      congr 1
      omega
    · rw [htl]
      simp
    · intro k it2 hstep
      obtain ⟨hby, hrg, hpos⟩ := bit_stepN_inv k ⟨bytes, range, 0⟩ it2
        (by show 0 ≤ range.count; omega)
        (by show range.count ≤ 8 * bytes.length; exact hb) hstep
      have hpos2 : it2.pos ≤ it2.range.count := by
        rw [hrg]
        exact hpos
      have hb2 : it2.range.count ≤ 8 * it2.bytes.length := by
        rw [hrg, hby]
        exact hb
      have htl2 := bit_toList_of_inv (it2.range.count - it2.pos) it2 rfl hpos2 hb2
      have hlen2 : it2.toList.length = it2.range.count - it2.pos := by
        rw [htl2, List.length_map, List.length_range]
      simp only [BitIterator.size_hint, hlen2]
  · intro it hit
    have hcre : bytes.length = 2 * range.count ∧ it = ⟨bytes, range, 0⟩ := by
      simp only [RegisterIterator.create] at hit
      split at hit
      · simp_all
      · rename_i hlen
        simp only [Except.ok.injEq] at hit
        exact ⟨by omega, hit.symm⟩
    obtain ⟨hlen, rfl⟩ := hcre
    have hb : 2 * range.count ≤ bytes.length := by omega
    have htl := reg_toList_of_inv range.count ⟨bytes, range, 0⟩
      (by show range.count - 0 = range.count; omega)
      (by show 0 ≤ range.count; omega)
      (by show 2 * range.count ≤ bytes.length; exact hb)
    refine ⟨?_, ?_, ?_⟩
    · rw [htl]
      apply List.map_congr_left
      intro i _
      show regAt bytes (0 + i) = regAt bytes i
      congr 1
      omega
    · rw [htl]
      simp
    · intro k it2 hstep
      obtain ⟨hby, hrg, hpos⟩ := reg_stepN_inv k ⟨bytes, range, 0⟩ it2
        (by show 0 ≤ range.count; omega)
        (by show 2 * range.count ≤ bytes.length; exact hb) hstep
      have hpos2 : it2.pos ≤ it2.range.count := by
        rw [hrg]
        exact hpos
      have hb2 : 2 * it2.range.count ≤ it2.bytes.length := by
        rw [hrg, hby]
        exact hb
      have htl2 := reg_toList_of_inv (it2.range.count - it2.pos) it2 rfl hpos2 hb2
      have hlen2 : it2.toList.length = it2.range.count - it2.pos := by
        rw [htl2, List.length_map, List.length_range]
      simp only [RegisterIterator.size_hint, hlen2]

/-- Witness for C8: the iterator over the byte 0x05 for a 3-bit range
yields exactly true, false, true, matching the source test
correctly_iterates_over_low_order_bits in spirit. -/
theorem iterator_iteration_spec_witness :
    BitIterator.toList ⟨[5], ⟨0, 3⟩, 0⟩ = [true, false, true] := by
  have h := (iterator_iteration_spec [5] 0 3 ⟨0, 3⟩ (by decide)).1
    ⟨[5], ⟨0, 3⟩, 0⟩ (by decide)
  rw [h.1]
  decide

end Rodbus
